import Mathlib

/-!
Shallow embedding of clang's `lib/Parse/ParseCXXInlineMethods.cpp`
(deferred parsing of C++ class inline method bodies and default arguments),
together with proofs of the specification's testable properties.

The embedding models the parser's token cursor as an explicit list of
tokens (head = current token `Tok`), the delimiter open counts
(`ParenCount`/`BracketCount`/`BraceCount`) as natural numbers, and the
external collaborators (diagnostics, `Sema` actions, the expression and
statement parsers) as trace events and oracle functions.  Recursive
token consumption is given an explicit fuel parameter; termination of
the original loop corresponds to sufficiency of fuel `length + 1`.
-/

namespace Clang

/-- Token kinds relevant to `ParseCXXInlineMethods.cpp`: the three
delimiter pairs, the kinds tested explicitly (`colon`, `semi`, `equal`,
`eof`, `unknown`, the string-literal family), and `other n` for every
remaining kind. -/
inductive TokKind where
  | l_paren
  | r_paren
  | l_square
  | r_square
  | l_brace
  | r_brace
  | semi
  | colon
  | equal
  | eof
  | unknown
  | string_literal
  | wide_string_literal
  | other (n : Nat)
deriving DecidableEq, Repr

/-- A lexed token: a kind plus an abstract source location / payload. -/
structure Token where
  kind : TokKind
  loc : Nat
deriving DecidableEq, Repr

/-- `CachedTokens` is an ordered buffer of tokens (`Toks` in the source). -/
abbrev CachedTokens := List Token

/-- The token returned when the stream is exhausted. -/
def eofTok : Token := ⟨TokKind.eof, 0⟩

/-- The three delimiter families tracked by the parser's open counts. -/
inductive Delim where
  | paren
  | square
  | brace
deriving DecidableEq, Repr

def openKind : Delim → TokKind
  | Delim.paren => TokKind.l_paren
  | Delim.square => TokKind.l_square
  | Delim.brace => TokKind.l_brace

def closeKind : Delim → TokKind
  | Delim.paren => TokKind.r_paren
  | Delim.square => TokKind.r_square
  | Delim.brace => TokKind.r_brace

/-- Parser cursor state: the remaining token stream (head = current
token `Tok`) and the three delimiter open counts. -/
structure PState where
  toks : List Token
  parenCount : Nat
  bracketCount : Nat
  braceCount : Nat
deriving DecidableEq, Repr

/-- The current token `Tok` (an `eof` token once the stream is exhausted). -/
def curTok (st : PState) : Token := st.toks.headD eofTok

/-- The open count the parser keeps for a delimiter family. -/
def countOf (st : PState) : Delim → Nat
  | Delim.paren => st.parenCount
  | Delim.square => st.bracketCount
  | Delim.brace => st.braceCount

/-- Modelled from the spec: `Parser::ConsumeToken` (declared in the
parser header, not part of the sampled source) advances the cursor past
a non-delimiter, non-string token. -/
def consumeToken (st : PState) : PState :=
  { st with toks := st.toks.tail }

/-- Modelled from the spec: `Parser::ConsumeParen` advances past a paren
token, incrementing the open count on `(` and decrementing it
(saturating at zero, so unbalanced `)` cannot drive it negative) on `)`. -/
def consumeParen (st : PState) : PState :=
  if (curTok st).kind = TokKind.l_paren then
    { st with toks := st.toks.tail, parenCount := st.parenCount + 1 }
  else
    { st with toks := st.toks.tail, parenCount := st.parenCount - 1 }

/-- Modelled from the spec: `Parser::ConsumeBracket`, as `consumeParen`
but for square brackets. -/
def consumeBracket (st : PState) : PState :=
  if (curTok st).kind = TokKind.l_square then
    { st with toks := st.toks.tail, bracketCount := st.bracketCount + 1 }
  else
    { st with toks := st.toks.tail, bracketCount := st.bracketCount - 1 }

/-- Modelled from the spec: `Parser::ConsumeBrace`, as `consumeParen`
but for braces. -/
def consumeBrace (st : PState) : PState :=
  if (curTok st).kind = TokKind.l_brace then
    { st with toks := st.toks.tail, braceCount := st.braceCount + 1 }
  else
    { st with toks := st.toks.tail, braceCount := st.braceCount - 1 }

/-- Modelled from the spec: `Parser::ConsumeStringToken` advances past a
string-literal-family token as an atomic unit. -/
def consumeStringToken (st : PState) : PState :=
  { st with toks := st.toks.tail }

/-- Modelled from the spec: `Parser::ConsumeAnyToken` dispatches to the
kind-specific consume method of the current token. -/
def consumeAnyToken (st : PState) : PState :=
  match (curTok st).kind with
  | TokKind.l_paren => consumeParen st
  | TokKind.r_paren => consumeParen st
  | TokKind.l_square => consumeBracket st
  | TokKind.r_square => consumeBracket st
  | TokKind.l_brace => consumeBrace st
  | TokKind.r_brace => consumeBrace st
  | TokKind.string_literal => consumeStringToken st
  | TokKind.wide_string_literal => consumeStringToken st
  | _ => consumeToken st

/-- Modelled from the spec: `Preprocessor::EnterTokenStream` pushes a
finite token sequence to be consumed before the original stream
continues; the current lookahead token `Tok` is unaffected. -/
def enterTokenStream (buf : CachedTokens) (st : PState) : PState :=
  { st with toks := curTok st :: (buf ++ st.toks.tail) }

/-- The cursor-substitution pattern used at both replay sites
(`ParseCXXInlineMethods.cpp` lines 85-89 and 123-127): append the
current token to the captured sequence so it is not lost, enter the
sequence as a token source, and consume the previously-pushed token. -/
def spliceCapture (capture : CachedTokens) (st : PState) : PState :=
  consumeAnyToken (enterTokenStream (capture ++ [curTok st]) st)

/-- The loop of `Parser::ConsumeAndStoreUntil` (lines 157-231), with the
local `isFirstTokenConsumed` flag and an explicit fuel parameter added
(`none` = fuel exhausted; the source loop has no fuel, and fuel
sufficiency is proved separately). -/
def ConsumeAndStoreUntilLoop (T1 T2 EarlyAbortIf : TokKind) (ConsumeFinalToken : Bool) :
    PState → CachedTokens → Bool → Nat → Option (Bool × PState × CachedTokens)
  | _, _, _, 0 => none
  | st, Toks, isFirst, fuel + 1 =>
    if (curTok st).kind = T1 ∨ (curTok st).kind = T2 then
      if ConsumeFinalToken then
        some (true, consumeAnyToken st, Toks ++ [curTok st])
      else
        some (true, st, Toks)
    else if (curTok st).kind = EarlyAbortIf then
      some (false, st, Toks)
    else
      match (curTok st).kind with
      | TokKind.eof => some (false, st, Toks)
      | TokKind.l_paren =>
        match ConsumeAndStoreUntilLoop TokKind.r_paren TokKind.unknown TokKind.unknown true
            (consumeParen st) (Toks ++ [curTok st]) true fuel with
        | none => none
        | some (_, st', Toks') =>
          ConsumeAndStoreUntilLoop T1 T2 EarlyAbortIf ConsumeFinalToken st' Toks' false fuel
      | TokKind.l_square =>
        match ConsumeAndStoreUntilLoop TokKind.r_square TokKind.unknown TokKind.unknown true
            (consumeBracket st) (Toks ++ [curTok st]) true fuel with
        | none => none
        | some (_, st', Toks') =>
          ConsumeAndStoreUntilLoop T1 T2 EarlyAbortIf ConsumeFinalToken st' Toks' false fuel
      | TokKind.l_brace =>
        match ConsumeAndStoreUntilLoop TokKind.r_brace TokKind.unknown TokKind.unknown true
            (consumeBrace st) (Toks ++ [curTok st]) true fuel with
        | none => none
        | some (_, st', Toks') =>
          ConsumeAndStoreUntilLoop T1 T2 EarlyAbortIf ConsumeFinalToken st' Toks' false fuel
      | TokKind.r_paren =>
        if st.parenCount ≠ 0 ∧ isFirst = false then
          some (false, st, Toks)
        else
          ConsumeAndStoreUntilLoop T1 T2 EarlyAbortIf ConsumeFinalToken
            (consumeParen st) (Toks ++ [curTok st]) false fuel
      | TokKind.r_square =>
        if st.bracketCount ≠ 0 ∧ isFirst = false then
          some (false, st, Toks)
        else
          ConsumeAndStoreUntilLoop T1 T2 EarlyAbortIf ConsumeFinalToken
            (consumeBracket st) (Toks ++ [curTok st]) false fuel
      | TokKind.r_brace =>
        if st.braceCount ≠ 0 ∧ isFirst = false then
          some (false, st, Toks)
        else
          ConsumeAndStoreUntilLoop T1 T2 EarlyAbortIf ConsumeFinalToken
            (consumeBrace st) (Toks ++ [curTok st]) false fuel
      | TokKind.string_literal =>
        ConsumeAndStoreUntilLoop T1 T2 EarlyAbortIf ConsumeFinalToken
          (consumeStringToken st) (Toks ++ [curTok st]) false fuel
      | TokKind.wide_string_literal =>
        ConsumeAndStoreUntilLoop T1 T2 EarlyAbortIf ConsumeFinalToken
          (consumeStringToken st) (Toks ++ [curTok st]) false fuel
      | _ =>
        ConsumeAndStoreUntilLoop T1 T2 EarlyAbortIf ConsumeFinalToken
          (consumeToken st) (Toks ++ [curTok st]) false fuel

/-- `Parser::ConsumeAndStoreUntil` (lines 150-232): consume and store
tokens until `T1` or `T2` is found, with `isFirstTokenConsumed`
initially true.  Returns `(found, final state, final buffer)`. -/
def ConsumeAndStoreUntil (T1 T2 EarlyAbortIf : TokKind) (ConsumeFinalToken : Bool)
    (st : PState) (Toks : CachedTokens) (fuel : Nat) :
    Option (Bool × PState × CachedTokens) :=
  ConsumeAndStoreUntilLoop T1 T2 EarlyAbortIf ConsumeFinalToken st Toks true fuel

/-- An external interaction of this file's routines: a diagnostic, a
call into the semantic-actions collaborator, or an invocation of one of
the general parser entry points. -/
inductive Event where
  | errExpectedLBrace (loc : Nat)
  | startDelayedCXXMethodDeclaration (m : Nat)
  | delayedCXXMethodParameter (p : Nat)
  | paramDefaultArgumentError (p : Nat)
  | paramDefaultArgument (p : Nat)
  | finishDelayedCXXMethodDeclaration (m : Nat)
  | startOfFunctionDef (d : Nat)
  | constructorInitializer (d : Nat)
  | functionStatementBody (d : Nat)
deriving DecidableEq, Repr

/-- A deferred body item (`struct LexedMethod`): the member declaration
handle `D` and the captured token sequence of its body. -/
structure LexedMethod where
  D : Nat
  Toks : CachedTokens
deriving DecidableEq, Repr

/-- One parameter record of a deferred declaration item
(`struct LateParsedDefaultArgument`): the parameter handle and the
optional captured default-argument token sequence. -/
structure LateParsedDefaultArgument where
  Param : Nat
  Toks : Option CachedTokens
deriving DecidableEq, Repr

/-- A deferred declaration item (`struct LateParsedMethodDeclaration`):
the method handle and its parameter records. -/
structure LateParsedMethodDeclaration where
  Method : Nat
  DefaultArgs : List LateParsedDefaultArgument
deriving DecidableEq, Repr

/-- Overwrite the `Toks` buffer of the last item of a body-item queue;
this models the C++ reference `CachedTokens &Toks = MethodDefs.back().Toks`
through which `ParseCXXInlineMethodDef` fills the freshly pushed item. -/
def setLastToks (Toks : CachedTokens) : List LexedMethod → List LexedMethod
  | [] => []
  | [lm] => [{ lm with Toks := Toks }]
  | lm :: lm' :: rest => lm :: setLastToks Toks (lm' :: rest)

/-- `Parser::ParseCXXInlineMethodDef` (lines 23-62): push a body item
for `FnD` onto the current class frame's `MethodDefs` queue and fill its
buffer by scanning the (optional constructor-initializer and) body.  On
a stray semicolon after a constructor-initializer colon: diagnose,
consume the semicolon, and pop the item again.  Returns the declaration
handle, the cursor state, the updated queue, and the emitted events
(`none` = scanner fuel exhausted). -/
def ParseCXXInlineMethodDef (FnD : Nat) (st : PState) (MethodDefs : List LexedMethod)
    (fuel : Nat) : Option (Nat × PState × List LexedMethod × List Event) :=
  if (curTok st).kind = TokKind.colon then
    match ConsumeAndStoreUntil TokKind.l_brace TokKind.unknown TokKind.semi true st [] fuel with
    | none => none
    | some (found, st1, Toks1) =>
      if found = false ∧ (curTok st1).kind = TokKind.semi then
        some (FnD, consumeAnyToken st1, (MethodDefs ++ [(⟨FnD, []⟩ : LexedMethod)]).dropLast,
          [Event.errExpectedLBrace (curTok st1).loc])
      else
        match ConsumeAndStoreUntil TokKind.r_brace TokKind.unknown TokKind.unknown true
            st1 Toks1 fuel with
        | none => none
        | some (_, st2, Toks2) =>
          some (FnD, st2, setLastToks Toks2 (MethodDefs ++ [(⟨FnD, []⟩ : LexedMethod)]), [])
  else
    match ConsumeAndStoreUntil TokKind.r_brace TokKind.unknown TokKind.unknown true
        (consumeBrace st) [curTok st] fuel with
    | none => none
    | some (_, st2, Toks2) =>
      some (FnD, st2, setLastToks Toks2 (MethodDefs ++ [(⟨FnD, []⟩ : LexedMethod)]), [])

/-- The inner loop of `Parser::ParseLexedMethodDeclarations`
(lines 79-104): bring each parameter into scope and, when it carries a
captured default-argument sequence, splice the sequence into the cursor,
consume the `=`, parse one assignment expression through the oracle
`pae` (`false` = `DefArgResult.isInvalid()`), and report the result or
the error to the semantic-actions collaborator. -/
def ParseLexedDefaultArguments (pae : PState → Bool × PState) :
    PState → List LateParsedDefaultArgument → PState × List Event
  | st, [] => (st, [])
  | st, arg :: rest =>
    match arg.Toks with
    | none =>
      let r := ParseLexedDefaultArguments pae st rest
      (r.1, Event.delayedCXXMethodParameter arg.Param :: r.2)
    | some Toks =>
      let st1 := spliceCapture Toks st
      let st2 := consumeToken st1
      let pr := pae st2
      let ev :=
        if pr.1 then Event.paramDefaultArgument arg.Param
        else Event.paramDefaultArgumentError arg.Param
      let r := ParseLexedDefaultArguments pae pr.2 rest
      (r.1, Event.delayedCXXMethodParameter arg.Param :: ev :: r.2)

/-- `Parser::ParseLexedMethodDeclarations` (lines 68-110): drain the
current class frame's `MethodDecls` queue front-to-back, processing each
deferred declaration item's parameters in order. -/
def ParseLexedMethodDeclarations (pae : PState → Bool × PState) :
    PState → List LateParsedMethodDeclaration → PState × List Event
  | st, [] => (st, [])
  | st, LM :: rest =>
    let r1 := ParseLexedDefaultArguments pae st LM.DefaultArgs
    let r2 := ParseLexedMethodDeclarations pae r1.1 rest
    (r2.1,
      Event.startDelayedCXXMethodDeclaration LM.Method :: r1.2
        ++ Event.finishDelayedCXXMethodDeclaration LM.Method :: r2.2)

/-- `Parser::ParseLexedMethodDefs` (lines 115-141): drain the current
class frame's `MethodDefs` queue front-to-back; for each item splice its
captured body into the cursor, parse a constructor initializer through
the oracle `pci` if the body starts with a colon, then parse the
statement body through the oracle `pfsb`. -/
def ParseLexedMethodDefs (pci pfsb : Nat → PState → PState) :
    PState → List LexedMethod → PState × List Event
  | st, [] => (st, [])
  | st, LM :: rest =>
    let st1 := spliceCapture LM.Toks st
    let r1 :=
      if (curTok st1).kind = TokKind.colon then
        (pci LM.D st1, [Event.constructorInitializer LM.D])
      else
        (st1, [])
    let st3 := pfsb LM.D r1.1
    let r2 := ParseLexedMethodDefs pci pfsb st3 rest
    (r2.1,
      Event.startOfFunctionDef LM.D :: r1.2
        ++ Event.functionStatementBody LM.D :: r2.2)

/-- One step of the delimiter counter used to state the balance
invariant: push open delimiters, pop matching close delimiters, fail on
a mismatched or unmatched close. -/
def delimStep (stk : List Delim) : TokKind → Option (List Delim)
  | TokKind.l_paren => some (Delim.paren :: stk)
  | TokKind.l_square => some (Delim.square :: stk)
  | TokKind.l_brace => some (Delim.brace :: stk)
  | TokKind.r_paren =>
    match stk with
    | Delim.paren :: s => some s
    | _ => none
  | TokKind.r_square =>
    match stk with
    | Delim.square :: s => some s
    | _ => none
  | TokKind.r_brace =>
    match stk with
    | Delim.brace :: s => some s
    | _ => none
  | _ => some stk

/-- Run the delimiter counter over a token sequence. -/
def runDelimCounter : List Delim → List Token → Option (List Delim)
  | stk, [] => some stk
  | stk, t :: ts =>
    match delimStep stk t.kind with
    | none => none
    | some stk' => runDelimCounter stk' ts

/-- A token sequence replays through the delimiter counter to net-zero
nesting, every close matching its open at the correct position. -/
def delimBalanced (toks : List Token) : Bool :=
  runDelimCounter [] toks = some []

/-- Token trees: a properly-balanced region of the token stream is the
flattening of a list of token trees.  A leaf must be neither a
delimiter, `eof`, nor `unknown`; a group is a delimiter pair (with the
locations of its open and close tokens) around a balanced list of
children. -/
inductive TokTree where
  | leaf (t : Token)
  | group (d : Delim) (ol cl : Nat) (children : List TokTree)
deriving Repr

mutual

/-- Flatten one token tree back into its token sequence. -/
def flattenTree : TokTree → List Token
  | TokTree.leaf t => [t]
  | TokTree.group d ol cl cs => ⟨openKind d, ol⟩ :: (flattenList cs ++ [⟨closeKind d, cl⟩])

/-- Flatten a list of token trees. -/
def flattenList : List TokTree → List Token
  | [] => []
  | t :: ts => flattenTree t ++ flattenList ts

end

/-- A token kind that is neither a structural delimiter, `eof`, nor
`unknown`; such tokens take the scanner's plain-consumption branches. -/
def plainKind : TokKind → Bool
  | TokKind.l_paren => false
  | TokKind.r_paren => false
  | TokKind.l_square => false
  | TokKind.r_square => false
  | TokKind.l_brace => false
  | TokKind.r_brace => false
  | TokKind.eof => false
  | TokKind.unknown => false
  | _ => true

mutual

/-- Well-formedness of a token tree: leaves are plain tokens (not
delimiters, not `eof`, not `unknown`). -/
def wfTree : TokTree → Bool
  | TokTree.leaf t => plainKind t.kind
  | TokTree.group _ _ _ cs => wfList cs

/-- Well-formedness of a list of token trees. -/
def wfList : List TokTree → Bool
  | [] => true
  | t :: ts => wfTree t && wfList ts

end

/-- The kind of the first token of a tree's flattening. -/
def topKind : TokTree → TokKind
  | TokTree.leaf t => t.kind
  | TokTree.group d _ _ _ => openKind d

/-! ### Basic facts about the cursor primitives -/

theorem toks_consumeToken (st : PState) : (consumeToken st).toks = st.toks.tail := rfl

theorem toks_consumeParen (st : PState) : (consumeParen st).toks = st.toks.tail := by
  unfold consumeParen; split <;> rfl

theorem toks_consumeBracket (st : PState) : (consumeBracket st).toks = st.toks.tail := by
  unfold consumeBracket; split <;> rfl

theorem toks_consumeBrace (st : PState) : (consumeBrace st).toks = st.toks.tail := by
  unfold consumeBrace; split <;> rfl

theorem toks_consumeStringToken (st : PState) :
    (consumeStringToken st).toks = st.toks.tail := rfl

theorem consumeStringToken_eq (st : PState) : consumeStringToken st = consumeToken st := rfl

theorem toks_consumeAnyToken (st : PState) : (consumeAnyToken st).toks = st.toks.tail := by
  unfold consumeAnyToken
  split <;>
    simp only [toks_consumeParen, toks_consumeBracket, toks_consumeBrace,
      toks_consumeStringToken, toks_consumeToken]

theorem curTok_kind_eof_of_nil (st : PState) (h : st.toks = []) :
    (curTok st).kind = TokKind.eof := by
  simp [curTok, h, eofTok]

theorem toks_ne_nil_of_kind (st : PState) (h : (curTok st).kind ≠ TokKind.eof) :
    st.toks ≠ [] := by
  intro hnil
  exact h (curTok_kind_eof_of_nil st hnil)

theorem length_tail_lt (st : PState) (h : st.toks ≠ []) :
    st.toks.tail.length < st.toks.length := by
  cases hx : st.toks with
  | nil => exact absurd hx h
  | cons a l => simp [List.length_cons, Nat.lt_succ_self]

/-! ### The output buffer only ever grows -/

theorem loop_toks_extends :
    ∀ (fuel : Nat) (T1 T2 ea : TokKind) (cft : Bool) (st : PState) (Toks : CachedTokens)
      (first b : Bool) (st' : PState) (Toks' : CachedTokens),
      ConsumeAndStoreUntilLoop T1 T2 ea cft st Toks first fuel = some (b, st', Toks') →
      ∃ δ, Toks' = Toks ++ δ := by
  intro fuel
  induction fuel with
  | zero =>
    intro T1 T2 ea cft st Toks first b st' Toks' h
    simp [ConsumeAndStoreUntilLoop] at h
  | succ n ih =>
    intro T1 T2 ea cft st Toks first b st' Toks' h
    simp only [ConsumeAndStoreUntilLoop] at h
    split at h
    · split at h <;>
        (simp only [Option.some.injEq, Prod.mk.injEq] at h
         rcases h with ⟨-, -, h3⟩
         first
         | exact ⟨[curTok st], h3.symm⟩
         | exact ⟨[], by rw [List.append_nil]; exact h3.symm⟩)
    · split at h
      · simp only [Option.some.injEq, Prod.mk.injEq] at h
        rcases h with ⟨-, -, h3⟩
        exact ⟨[], by rw [List.append_nil]; exact h3.symm⟩
      · split at h
        -- eof
        · simp only [Option.some.injEq, Prod.mk.injEq] at h
          rcases h with ⟨-, -, h3⟩
          exact ⟨[], by rw [List.append_nil]; exact h3.symm⟩
        -- l_paren
        · split at h
          · simp at h
          · rename_i heq
            obtain ⟨δ₁, h₁⟩ := ih _ _ _ _ _ _ _ _ _ _ heq
            obtain ⟨δ₂, h₂⟩ := ih _ _ _ _ _ _ _ _ _ _ h
            exact ⟨[curTok st] ++ δ₁ ++ δ₂,
              by rw [h₂, h₁, List.append_assoc, List.append_assoc, List.append_assoc]⟩
        -- l_square
        · split at h
          · simp at h
          · rename_i heq
            obtain ⟨δ₁, h₁⟩ := ih _ _ _ _ _ _ _ _ _ _ heq
            obtain ⟨δ₂, h₂⟩ := ih _ _ _ _ _ _ _ _ _ _ h
            exact ⟨[curTok st] ++ δ₁ ++ δ₂,
              by rw [h₂, h₁, List.append_assoc, List.append_assoc, List.append_assoc]⟩
        -- l_brace
        · split at h
          · simp at h
          · rename_i heq
            obtain ⟨δ₁, h₁⟩ := ih _ _ _ _ _ _ _ _ _ _ heq
            obtain ⟨δ₂, h₂⟩ := ih _ _ _ _ _ _ _ _ _ _ h
            exact ⟨[curTok st] ++ δ₁ ++ δ₂,
              by rw [h₂, h₁, List.append_assoc, List.append_assoc, List.append_assoc]⟩
        -- r_paren
        · split at h
          · simp only [Option.some.injEq, Prod.mk.injEq] at h
            rcases h with ⟨-, -, h3⟩
            exact ⟨[], by rw [List.append_nil]; exact h3.symm⟩
          · obtain ⟨δ, hδ⟩ := ih _ _ _ _ _ _ _ _ _ _ h
            exact ⟨[curTok st] ++ δ, by rw [hδ, List.append_assoc]⟩
        -- r_square
        · split at h
          · simp only [Option.some.injEq, Prod.mk.injEq] at h
            rcases h with ⟨-, -, h3⟩
            exact ⟨[], by rw [List.append_nil]; exact h3.symm⟩
          · obtain ⟨δ, hδ⟩ := ih _ _ _ _ _ _ _ _ _ _ h
            exact ⟨[curTok st] ++ δ, by rw [hδ, List.append_assoc]⟩
        -- r_brace
        · split at h
          · simp only [Option.some.injEq, Prod.mk.injEq] at h
            rcases h with ⟨-, -, h3⟩
            exact ⟨[], by rw [List.append_nil]; exact h3.symm⟩
          · obtain ⟨δ, hδ⟩ := ih _ _ _ _ _ _ _ _ _ _ h
            exact ⟨[curTok st] ++ δ, by rw [hδ, List.append_assoc]⟩
        -- string_literal
        · obtain ⟨δ, hδ⟩ := ih _ _ _ _ _ _ _ _ _ _ h
          exact ⟨[curTok st] ++ δ, by rw [hδ, List.append_assoc]⟩
        -- wide_string_literal
        · obtain ⟨δ, hδ⟩ := ih _ _ _ _ _ _ _ _ _ _ h
          exact ⟨[curTok st] ++ δ, by rw [hδ, List.append_assoc]⟩
        -- default
        · obtain ⟨δ, hδ⟩ := ih _ _ _ _ _ _ _ _ _ _ h
          exact ⟨[curTok st] ++ δ, by rw [hδ, List.append_assoc]⟩

/-! ### The scan never lengthens the stream, and enough fuel always suffices -/

theorem length_tail_le (l : List Token) : l.tail.length ≤ l.length := by
  cases l <;> simp

theorem loop_length_le :
    ∀ (fuel : Nat) (T1 T2 ea : TokKind) (cft : Bool) (st : PState) (Toks : CachedTokens)
      (first b : Bool) (st' : PState) (Toks' : CachedTokens),
      ConsumeAndStoreUntilLoop T1 T2 ea cft st Toks first fuel = some (b, st', Toks') →
      st'.toks.length ≤ st.toks.length := by
  intro fuel
  induction fuel with
  | zero =>
    intro T1 T2 ea cft st Toks first b st' Toks' h
    simp [ConsumeAndStoreUntilLoop] at h
  | succ n ih =>
    intro T1 T2 ea cft st Toks first b st' Toks' h
    simp only [ConsumeAndStoreUntilLoop] at h
    split at h
    · split at h <;>
        (simp only [Option.some.injEq, Prod.mk.injEq] at h
         rcases h with ⟨-, h2, -⟩
         first
         | (rw [← h2, toks_consumeAnyToken]; exact length_tail_le _)
         | rw [← h2])
    · split at h
      · simp only [Option.some.injEq, Prod.mk.injEq] at h
        rcases h with ⟨-, h2, -⟩
        rw [← h2]
      · split at h
        -- eof
        · simp only [Option.some.injEq, Prod.mk.injEq] at h
          rcases h with ⟨-, h2, -⟩
          rw [← h2]
        -- l_paren
        · split at h
          · simp at h
          · rename_i heq
            have h₁ := ih _ _ _ _ _ _ _ _ _ _ heq
            have h₂ := ih _ _ _ _ _ _ _ _ _ _ h
            rw [toks_consumeParen] at h₁
            exact Nat.le_trans h₂ (Nat.le_trans h₁ (length_tail_le _))
        -- l_square
        · split at h
          · simp at h
          · rename_i heq
            have h₁ := ih _ _ _ _ _ _ _ _ _ _ heq
            have h₂ := ih _ _ _ _ _ _ _ _ _ _ h
            rw [toks_consumeBracket] at h₁
            exact Nat.le_trans h₂ (Nat.le_trans h₁ (length_tail_le _))
        -- l_brace
        · split at h
          · simp at h
          · rename_i heq
            have h₁ := ih _ _ _ _ _ _ _ _ _ _ heq
            have h₂ := ih _ _ _ _ _ _ _ _ _ _ h
            rw [toks_consumeBrace] at h₁
            exact Nat.le_trans h₂ (Nat.le_trans h₁ (length_tail_le _))
        -- r_paren
        · split at h
          · simp only [Option.some.injEq, Prod.mk.injEq] at h
            rcases h with ⟨-, h2, -⟩
            rw [← h2]
          · have h₂ := ih _ _ _ _ _ _ _ _ _ _ h
            rw [toks_consumeParen] at h₂
            exact Nat.le_trans h₂ (length_tail_le _)
        -- r_square
        · split at h
          · simp only [Option.some.injEq, Prod.mk.injEq] at h
            rcases h with ⟨-, h2, -⟩
            rw [← h2]
          · have h₂ := ih _ _ _ _ _ _ _ _ _ _ h
            rw [toks_consumeBracket] at h₂
            exact Nat.le_trans h₂ (length_tail_le _)
        -- r_brace
        · split at h
          · simp only [Option.some.injEq, Prod.mk.injEq] at h
            rcases h with ⟨-, h2, -⟩
            rw [← h2]
          · have h₂ := ih _ _ _ _ _ _ _ _ _ _ h
            rw [toks_consumeBrace] at h₂
            exact Nat.le_trans h₂ (length_tail_le _)
        -- string_literal
        · have h₂ := ih _ _ _ _ _ _ _ _ _ _ h
          rw [toks_consumeStringToken] at h₂
          exact Nat.le_trans h₂ (length_tail_le _)
        -- wide_string_literal
        · have h₂ := ih _ _ _ _ _ _ _ _ _ _ h
          rw [toks_consumeStringToken] at h₂
          exact Nat.le_trans h₂ (length_tail_le _)
        -- default
        · have h₂ := ih _ _ _ _ _ _ _ _ _ _ h
          rw [toks_consumeToken] at h₂
          exact Nat.le_trans h₂ (length_tail_le _)

theorem loop_isSome :
    ∀ (fuel : Nat) (T1 T2 ea : TokKind) (cft : Bool) (st : PState) (Toks : CachedTokens)
      (first : Bool), st.toks.length < fuel →
      (ConsumeAndStoreUntilLoop T1 T2 ea cft st Toks first fuel).isSome := by
  intro fuel
  induction fuel with
  | zero =>
    intro T1 T2 ea cft st Toks first h
    omega
  | succ n ih =>
    intro T1 T2 ea cft st Toks first hlen
    simp only [ConsumeAndStoreUntilLoop]
    split
    · split <;> simp
    · split
      · simp
      · split
        -- eof
        · simp
        -- l_paren
        · rename_i heq
          have hne : st.toks ≠ [] := toks_ne_nil_of_kind st (by rw [heq]; simp)
          have htail := length_tail_lt st hne
          have hlt : (consumeParen st).toks.length < n := by
            rw [toks_consumeParen]; omega
          have hN := ih TokKind.r_paren TokKind.unknown TokKind.unknown true
            (consumeParen st) (Toks ++ [curTok st]) true hlt
          rcases Option.isSome_iff_exists.mp hN with ⟨v, heqN⟩
          obtain ⟨b1, st1, Toks1⟩ := v
          rw [heqN]
          have hlt2 : st1.toks.length < n := by
            have hmono := loop_length_le n _ _ _ _ _ _ _ _ _ _ heqN
            rw [toks_consumeParen] at hmono
            omega
          exact ih T1 T2 ea cft st1 Toks1 false hlt2
        -- l_square
        · rename_i heq
          have hne : st.toks ≠ [] := toks_ne_nil_of_kind st (by rw [heq]; simp)
          have htail := length_tail_lt st hne
          have hlt : (consumeBracket st).toks.length < n := by
            rw [toks_consumeBracket]; omega
          have hN := ih TokKind.r_square TokKind.unknown TokKind.unknown true
            (consumeBracket st) (Toks ++ [curTok st]) true hlt
          rcases Option.isSome_iff_exists.mp hN with ⟨v, heqN⟩
          obtain ⟨b1, st1, Toks1⟩ := v
          rw [heqN]
          have hlt2 : st1.toks.length < n := by
            have hmono := loop_length_le n _ _ _ _ _ _ _ _ _ _ heqN
            rw [toks_consumeBracket] at hmono
            omega
          exact ih T1 T2 ea cft st1 Toks1 false hlt2
        -- l_brace
        · rename_i heq
          have hne : st.toks ≠ [] := toks_ne_nil_of_kind st (by rw [heq]; simp)
          have htail := length_tail_lt st hne
          have hlt : (consumeBrace st).toks.length < n := by
            rw [toks_consumeBrace]; omega
          have hN := ih TokKind.r_brace TokKind.unknown TokKind.unknown true
            (consumeBrace st) (Toks ++ [curTok st]) true hlt
          rcases Option.isSome_iff_exists.mp hN with ⟨v, heqN⟩
          obtain ⟨b1, st1, Toks1⟩ := v
          rw [heqN]
          have hlt2 : st1.toks.length < n := by
            have hmono := loop_length_le n _ _ _ _ _ _ _ _ _ _ heqN
            rw [toks_consumeBrace] at hmono
            omega
          exact ih T1 T2 ea cft st1 Toks1 false hlt2
        -- r_paren
        · rename_i heq
          split
          · simp
          · have hne : st.toks ≠ [] := toks_ne_nil_of_kind st (by rw [heq]; simp)
            have htail := length_tail_lt st hne
            apply ih
            rw [toks_consumeParen]
            omega
        -- r_square
        · rename_i heq
          split
          · simp
          · have hne : st.toks ≠ [] := toks_ne_nil_of_kind st (by rw [heq]; simp)
            have htail := length_tail_lt st hne
            apply ih
            rw [toks_consumeBracket]
            omega
        -- r_brace
        · rename_i heq
          split
          · simp
          · have hne : st.toks ≠ [] := toks_ne_nil_of_kind st (by rw [heq]; simp)
            have htail := length_tail_lt st hne
            apply ih
            rw [toks_consumeBrace]
            omega
        -- string_literal
        · rename_i heq
          have hne : st.toks ≠ [] := toks_ne_nil_of_kind st (by rw [heq]; simp)
          have htail := length_tail_lt st hne
          apply ih
          rw [toks_consumeStringToken]
          omega
        -- wide_string_literal
        · rename_i heq
          have hne : st.toks ≠ [] := toks_ne_nil_of_kind st (by rw [heq]; simp)
          have htail := length_tail_lt st hne
          apply ih
          rw [toks_consumeStringToken]
          omega
        -- default
        · have hne : st.toks ≠ [] := by
            intro hnil
            have hk := curTok_kind_eof_of_nil st hnil
            simp_all
          have htail := length_tail_lt st hne
          apply ih
          rw [toks_consumeToken]
          omega

/-! ### Where a not-found result can stop -/

theorem loop_false_characterization :
    ∀ (fuel : Nat) (T1 T2 ea : TokKind) (cft : Bool) (st : PState) (Toks : CachedTokens)
      (first : Bool) (st' : PState) (Toks' : CachedTokens),
      ConsumeAndStoreUntilLoop T1 T2 ea cft st Toks first fuel = some (false, st', Toks') →
      (curTok st').kind = ea ∨ (curTok st').kind = TokKind.eof ∨
        ∃ d, (curTok st').kind = closeKind d ∧ countOf st' d ≠ 0 := by
  intro fuel
  induction fuel with
  | zero =>
    intro T1 T2 ea cft st Toks first st' Toks' h
    simp [ConsumeAndStoreUntilLoop] at h
  | succ n ih =>
    intro T1 T2 ea cft st Toks first st' Toks' h
    simp only [ConsumeAndStoreUntilLoop] at h
    split at h
    · split at h <;> simp at h
    · split at h
      · rename_i heq
        simp only [Option.some.injEq, Prod.mk.injEq] at h
        rcases h with ⟨-, h2, -⟩
        rw [← h2]
        exact Or.inl heq
      · split at h
        -- eof
        · rename_i heq
          simp only [Option.some.injEq, Prod.mk.injEq] at h
          rcases h with ⟨-, h2, -⟩
          rw [← h2]
          exact Or.inr (Or.inl heq)
        -- l_paren
        · split at h
          · simp at h
          · exact ih _ _ _ _ _ _ _ _ _ h
        -- l_square
        · split at h
          · simp at h
          · exact ih _ _ _ _ _ _ _ _ _ h
        -- l_brace
        · split at h
          · simp at h
          · exact ih _ _ _ _ _ _ _ _ _ h
        -- r_paren
        · rename_i heq
          split at h
          · rename_i hc
            simp only [Option.some.injEq, Prod.mk.injEq] at h
            rcases h with ⟨-, h2, -⟩
            rw [← h2]
            exact Or.inr (Or.inr ⟨Delim.paren, heq, hc.1⟩)
          · exact ih _ _ _ _ _ _ _ _ _ h
        -- r_square
        · rename_i heq
          split at h
          · rename_i hc
            simp only [Option.some.injEq, Prod.mk.injEq] at h
            rcases h with ⟨-, h2, -⟩
            rw [← h2]
            exact Or.inr (Or.inr ⟨Delim.square, heq, hc.1⟩)
          · exact ih _ _ _ _ _ _ _ _ _ h
        -- r_brace
        · rename_i heq
          split at h
          · rename_i hc
            simp only [Option.some.injEq, Prod.mk.injEq] at h
            rcases h with ⟨-, h2, -⟩
            rw [← h2]
            exact Or.inr (Or.inr ⟨Delim.brace, heq, hc.1⟩)
          · exact ih _ _ _ _ _ _ _ _ _ h
        -- string_literal
        · exact ih _ _ _ _ _ _ _ _ _ h
        -- wide_string_literal
        · exact ih _ _ _ _ _ _ _ _ _ h
        -- default
        · exact ih _ _ _ _ _ _ _ _ _ h

/-! ### One-step unfoldings of the scanner loop -/

theorem loop_step_term_cft (T1 T2 ea : TokKind) (st : PState) (Toks : CachedTokens)
    (first : Bool) (fuel : Nat) (h : (curTok st).kind = T1 ∨ (curTok st).kind = T2) :
    ConsumeAndStoreUntilLoop T1 T2 ea true st Toks first (fuel + 1)
      = some (true, consumeAnyToken st, Toks ++ [curTok st]) := by
  simp only [ConsumeAndStoreUntilLoop]
  rw [if_pos h]
  rfl

theorem loop_step_term_nocft (T1 T2 ea : TokKind) (st : PState) (Toks : CachedTokens)
    (first : Bool) (fuel : Nat) (h : (curTok st).kind = T1 ∨ (curTok st).kind = T2) :
    ConsumeAndStoreUntilLoop T1 T2 ea false st Toks first (fuel + 1)
      = some (true, st, Toks) := by
  simp only [ConsumeAndStoreUntilLoop]
  rw [if_pos h]
  rfl

theorem loop_step_ea (T1 T2 ea : TokKind) (cft : Bool) (st : PState) (Toks : CachedTokens)
    (first : Bool) (fuel : Nat) (hk : (curTok st).kind = ea)
    (hT1 : ea ≠ T1) (hT2 : ea ≠ T2) :
    ConsumeAndStoreUntilLoop T1 T2 ea cft st Toks first (fuel + 1)
      = some (false, st, Toks) := by
  simp only [ConsumeAndStoreUntilLoop]
  rw [hk, if_neg (not_or.mpr ⟨hT1, hT2⟩), if_pos rfl]

theorem loop_step_eof (T1 T2 ea : TokKind) (cft : Bool) (st : PState) (Toks : CachedTokens)
    (first : Bool) (fuel : Nat) (hk : (curTok st).kind = TokKind.eof)
    (hT1 : TokKind.eof ≠ T1) (hT2 : TokKind.eof ≠ T2) (hea : TokKind.eof ≠ ea) :
    ConsumeAndStoreUntilLoop T1 T2 ea cft st Toks first (fuel + 1)
      = some (false, st, Toks) := by
  simp only [ConsumeAndStoreUntilLoop]
  rw [hk, if_neg (not_or.mpr ⟨hT1, hT2⟩), if_neg hea]

/-- The delimiter-specific consume method used by the scanner's
open/close cases for family `d`. -/
def consumeDelim : Delim → PState → PState
  | Delim.paren => consumeParen
  | Delim.square => consumeBracket
  | Delim.brace => consumeBrace

theorem toks_consumeDelim (d : Delim) (st : PState) :
    (consumeDelim d st).toks = st.toks.tail := by
  cases d <;>
    simp only [consumeDelim, toks_consumeParen, toks_consumeBracket, toks_consumeBrace]

theorem loop_step_close_stop (d : Delim) (T1 T2 ea : TokKind) (cft : Bool) (st : PState)
    (Toks : CachedTokens) (fuel : Nat) (hk : (curTok st).kind = closeKind d)
    (hT1 : closeKind d ≠ T1) (hT2 : closeKind d ≠ T2) (hea : closeKind d ≠ ea)
    (hc : countOf st d ≠ 0) :
    ConsumeAndStoreUntilLoop T1 T2 ea cft st Toks false (fuel + 1)
      = some (false, st, Toks) := by
  cases d <;>
    (simp only [closeKind] at hk hT1 hT2 hea
     simp only [countOf] at hc
     simp only [ConsumeAndStoreUntilLoop]
     rw [hk, if_neg (not_or.mpr ⟨hT1, hT2⟩), if_neg hea]
     simp [hc])

theorem loop_step_close_skip (d : Delim) (T1 T2 ea : TokKind) (cft : Bool) (st : PState)
    (Toks : CachedTokens) (first : Bool) (fuel : Nat) (hk : (curTok st).kind = closeKind d)
    (hT1 : closeKind d ≠ T1) (hT2 : closeKind d ≠ T2) (hea : closeKind d ≠ ea)
    (hcf : countOf st d = 0 ∨ first = true) :
    ConsumeAndStoreUntilLoop T1 T2 ea cft st Toks first (fuel + 1)
      = ConsumeAndStoreUntilLoop T1 T2 ea cft (consumeDelim d st) (Toks ++ [curTok st])
          false fuel := by
  have hcond : ∀ c : Nat, ∀ f : Bool, c = 0 ∨ f = true → ¬(¬c = 0 ∧ f = false) := by
    intro c f hcf hand
    rcases hcf with h0 | h1
    · exact hand.1 h0
    · rw [h1] at hand
      exact absurd hand.2 (by decide)
  cases d <;>
    (simp only [closeKind] at hk hT1 hT2 hea
     simp only [countOf] at hcf
     simp only [ConsumeAndStoreUntilLoop, consumeDelim]
     rw [hk, if_neg (not_or.mpr ⟨hT1, hT2⟩), if_neg hea]
     simp only [if_neg (hcond _ _ hcf)])

theorem loop_step_open (d : Delim) (T1 T2 ea : TokKind) (cft : Bool) (st : PState)
    (Toks : CachedTokens) (first : Bool) (fuel : Nat) (hk : (curTok st).kind = openKind d)
    (hT1 : openKind d ≠ T1) (hT2 : openKind d ≠ T2) (hea : openKind d ≠ ea) :
    ConsumeAndStoreUntilLoop T1 T2 ea cft st Toks first (fuel + 1)
      = match ConsumeAndStoreUntilLoop (closeKind d) TokKind.unknown TokKind.unknown true
            (consumeDelim d st) (Toks ++ [curTok st]) true fuel with
        | none => none
        | some (_, st', Toks') =>
          ConsumeAndStoreUntilLoop T1 T2 ea cft st' Toks' false fuel := by
  cases d <;>
    (simp only [openKind] at hk hT1 hT2 hea
     simp only [closeKind, consumeDelim, ConsumeAndStoreUntilLoop]
     rw [hk, if_neg (not_or.mpr ⟨hT1, hT2⟩), if_neg hea])

theorem loop_step_plain (k T1 T2 ea : TokKind) (cft : Bool) (st : PState)
    (Toks : CachedTokens) (first : Bool) (fuel : Nat) (hk : (curTok st).kind = k)
    (hp : plainKind k = true) (hT1 : k ≠ T1) (hT2 : k ≠ T2) (hea : k ≠ ea) :
    ConsumeAndStoreUntilLoop T1 T2 ea cft st Toks first (fuel + 1)
      = ConsumeAndStoreUntilLoop T1 T2 ea cft (consumeToken st) (Toks ++ [curTok st])
          false fuel := by
  simp only [ConsumeAndStoreUntilLoop]
  rw [hk, if_neg (not_or.mpr ⟨hT1, hT2⟩), if_neg hea]
  cases k <;> simp [plainKind, consumeStringToken_eq] at hp ⊢

/-! ### Balanced regions: well-formed token trees and their capture -/

theorem wfList_cons (t : TokTree) (ts : List TokTree) (h : wfList (t :: ts) = true) :
    wfTree t = true ∧ wfList ts = true := by
  simp only [wfList, Bool.and_eq_true] at h
  exact h

theorem wf_topKind_ne_close (t : TokTree) (hwf : wfTree t = true) (d : Delim) :
    topKind t ≠ closeKind d := by
  cases t with
  | leaf tok =>
    simp only [topKind, wfTree] at hwf ⊢
    intro h
    rw [h] at hwf
    cases d <;> simp [closeKind, plainKind] at hwf
  | group d' ol cl cs =>
    simp only [topKind]
    cases d' <;> cases d <;> simp [openKind, closeKind]

theorem wf_topKind_ne_unknown (t : TokTree) (hwf : wfTree t = true) :
    topKind t ≠ TokKind.unknown := by
  cases t with
  | leaf tok =>
    simp only [topKind, wfTree] at hwf ⊢
    intro h
    rw [h] at hwf
    simp [plainKind] at hwf
  | group d' ol cl cs =>
    simp only [topKind]
    cases d' <;> simp [openKind]

theorem flattenList_cons (t : TokTree) (ts : List TokTree) :
    flattenList (t :: ts) = flattenTree t ++ flattenList ts := rfl

theorem wfList_mem : ∀ (cs : List TokTree), wfList cs = true → ∀ u ∈ cs, wfTree u = true := by
  intro cs
  induction cs with
  | nil =>
    intro _ u hu
    cases hu
  | cons c cs' ihc =>
    intro h u hu
    obtain ⟨hc, hcs⟩ := wfList_cons c cs' h
    rcases List.mem_cons.mp hu with h1 | h1
    · rw [h1]
      exact hc
    · exact ihc hcs u h1

theorem consume_close_of_open (d : Delim) (st : PState) (cl : Nat) (r : List Token)
    (hk : (curTok st).kind = openKind d) :
    consumeAnyToken { consumeDelim d st with toks := (⟨closeKind d, cl⟩ : Token) :: r }
      = { st with toks := r } := by
  obtain ⟨toks, pc, bc, brc⟩ := st
  cases d <;>
    (simp only [openKind, curTok, List.headD_eq_head?] at hk
     simp [consumeDelim, closeKind, consumeParen, consumeBracket, consumeBrace,
       consumeAnyToken, curTok, hk])

theorem loop_balanced_region :
    ∀ (fuel : Nat) (ts : List TokTree) (T1 T2 ea : TokKind) (st : PState)
      (Toks : CachedTokens) (first : Bool) (term : Token) (rest : List Token),
      wfList ts = true →
      (∀ t ∈ ts, topKind t ≠ T1 ∧ topKind t ≠ T2 ∧ topKind t ≠ ea) →
      (term.kind = T1 ∨ term.kind = T2) →
      st.toks = flattenList ts ++ term :: rest →
      (flattenList ts).length + 2 ≤ fuel →
      ConsumeAndStoreUntilLoop T1 T2 ea true st Toks first fuel
        = some (true, consumeAnyToken { st with toks := term :: rest },
            Toks ++ flattenList ts ++ [term]) := by
  intro fuel
  induction fuel with
  | zero =>
    intro ts T1 T2 ea st Toks first term rest hwf havoid hterm hst hfuel
    omega
  | succ n ih =>
    intro ts T1 T2 ea st Toks first term rest hwf havoid hterm hst hfuel
    cases ts with
    | nil =>
      have hst' : st.toks = term :: rest := by simpa [flattenList] using hst
      have hcur : curTok st = term := by simp [curTok, hst']
      have hsteq : { st with toks := term :: rest } = st := by rw [← hst']
      rw [loop_step_term_cft T1 T2 ea st Toks first n (by rw [hcur]; exact hterm)]
      rw [hsteq, hcur]
      simp [flattenList]
    | cons t ts' =>
      obtain ⟨hwt, hwl⟩ := wfList_cons t ts' hwf
      obtain ⟨hn1, hn2, hn3⟩ := havoid t (List.mem_cons_self t ts')
      have havoid' : ∀ u ∈ ts', topKind u ≠ T1 ∧ topKind u ≠ T2 ∧ topKind u ≠ ea :=
        fun u hu => havoid u (List.mem_cons_of_mem t hu)
      cases t with
      | leaf tok =>
        have hflat : flattenList (TokTree.leaf tok :: ts')
            = tok :: flattenList ts' := rfl
        rw [hflat] at hst hfuel
        have hcur : curTok st = tok := by simp [curTok, hst]
        have hkind : (curTok st).kind = tok.kind := by rw [hcur]
        simp only [topKind] at hn1 hn2 hn3
        have hplain : plainKind tok.kind = true := hwt
        rw [loop_step_plain tok.kind T1 T2 ea true st Toks first n hkind hplain hn1 hn2 hn3]
        have htoks : (consumeToken st).toks = flattenList ts' ++ term :: rest := by
          rw [toks_consumeToken, hst]
          rfl
        have hrec := ih ts' T1 T2 ea (consumeToken st) (Toks ++ [curTok st]) false term rest
          hwl havoid' hterm htoks (by simp at hfuel ⊢; omega)
        rw [hrec]
        have hcollapse :
            ({ consumeToken st with toks := term :: rest } : PState)
              = { st with toks := term :: rest } := rfl
        rw [hcollapse, hcur, hflat]
        simp [List.append_assoc]
      | group d ol cl cs =>
        have hflat : flattenList (TokTree.group d ol cl cs :: ts')
            = ⟨openKind d, ol⟩ :: (flattenList cs
                ++ ⟨closeKind d, cl⟩ :: flattenList ts') := by
          simp [flattenList_cons, flattenTree, List.append_assoc]
        rw [hflat] at hst
        have hlen : (flattenList (TokTree.group d ol cl cs :: ts')).length
            = (flattenList cs).length + (flattenList ts').length + 2 := by
          rw [hflat]
          simp [List.length_append]
          omega
        rw [hlen] at hfuel
        have hcur : curTok st = ⟨openKind d, ol⟩ := by simp [curTok, hst]
        have hkind : (curTok st).kind = openKind d := by rw [hcur]
        simp only [topKind] at hn1 hn2 hn3
        rw [loop_step_open d T1 T2 ea true st Toks first n hkind hn1 hn2 hn3]
        have havoidN : ∀ u ∈ cs, topKind u ≠ closeKind d ∧ topKind u ≠ TokKind.unknown
            ∧ topKind u ≠ TokKind.unknown := by
          intro u hu
          have hwu : wfTree u = true := wfList_mem cs hwt u hu
          exact ⟨wf_topKind_ne_close u hwu d, wf_topKind_ne_unknown u hwu,
            wf_topKind_ne_unknown u hwu⟩
        have htoksN : (consumeDelim d st).toks
            = flattenList cs ++ (⟨closeKind d, cl⟩ : Token) :: (flattenList ts'
                ++ term :: rest) := by
          rw [toks_consumeDelim, hst]
          simp [List.append_assoc]
        have hrecN := ih cs (closeKind d) TokKind.unknown TokKind.unknown
          (consumeDelim d st) (Toks ++ [curTok st]) true (⟨closeKind d, cl⟩ : Token)
          (flattenList ts' ++ term :: rest) (by exact hwt) havoidN (Or.inl rfl) htoksN
          (by omega)
        simp only [hrecN]
        have hclose := consume_close_of_open d st cl (flattenList ts' ++ term :: rest) hkind
        rw [hclose]
        have hrec := ih ts' T1 T2 ea ({ st with toks := flattenList ts' ++ term :: rest })
          ((Toks ++ [curTok st]) ++ flattenList cs ++ [(⟨closeKind d, cl⟩ : Token)]) false
          term rest hwl havoid' hterm rfl (by omega)
        rw [hrec]
        have hcollapse :
            ({ ({ st with toks := flattenList ts' ++ term :: rest } : PState) with
                toks := term :: rest } : PState)
              = { st with toks := term :: rest } := rfl
        rw [hcollapse, hcur, hflat]
        simp [List.append_assoc, flattenTree]

/-! ### Flattened well-formed trees replay to net-zero nesting -/

theorem delimStep_plain (stk : List Delim) (k : TokKind) (h : plainKind k = true) :
    delimStep stk k = some stk := by
  cases k <;> simp [plainKind, delimStep] at h ⊢

theorem delimStep_open (stk : List Delim) (d : Delim) :
    delimStep stk (openKind d) = some (d :: stk) := by
  cases d <;> rfl

theorem delimStep_close (stk : List Delim) (d : Delim) :
    delimStep (d :: stk) (closeKind d) = some stk := by
  cases d <;> rfl

mutual

theorem runDelim_flattenTree (t : TokTree) (hw : wfTree t = true) (stk : List Delim)
    (rest : List Token) :
    runDelimCounter stk (flattenTree t ++ rest) = runDelimCounter stk rest := by
  cases t with
  | leaf tok =>
    have hp : plainKind tok.kind = true := hw
    simp only [flattenTree, List.cons_append, List.nil_append, runDelimCounter,
      delimStep_plain stk tok.kind hp]
    simp
  | group d ol cl cs =>
    have hwcs : wfList cs = true := hw
    simp only [flattenTree, List.cons_append, runDelimCounter, delimStep_open stk d]
    have hassoc : ((flattenList cs ++ [(⟨closeKind d, cl⟩ : Token)]).append rest)
        = flattenList cs ++ ((⟨closeKind d, cl⟩ : Token) :: rest) := by simp
    rw [hassoc, runDelim_flattenList cs hwcs (d :: stk) ((⟨closeKind d, cl⟩ : Token) :: rest)]
    simp only [runDelimCounter, delimStep_close stk d]

theorem runDelim_flattenList (ts : List TokTree) (hw : wfList ts = true) (stk : List Delim)
    (rest : List Token) :
    runDelimCounter stk (flattenList ts ++ rest) = runDelimCounter stk rest := by
  cases ts with
  | nil => simp [flattenList]
  | cons t ts' =>
    obtain ⟨hwt, hwl⟩ := wfList_cons t ts' hw
    rw [flattenList_cons, List.append_assoc,
      runDelim_flattenTree t hwt stk (flattenList ts' ++ rest),
      runDelim_flattenList ts' hwl stk rest]

end

theorem delimBalanced_flattenList (ts : List TokTree) (hw : wfList ts = true) :
    delimBalanced (flattenList ts) = true := by
  have h := runDelim_flattenList ts hw [] []
  rw [List.append_nil] at h
  simp [delimBalanced, h, runDelimCounter]

/-! ### Trace extractors and drain-order lemmas -/

/-- Extract the handle of a statement-body replay event. -/
def bodyHandle : Event → Option Nat
  | Event.functionStatementBody d => some d
  | _ => none

/-- Extract the handle of a delayed-declaration start event. -/
def declHandle : Event → Option Nat
  | Event.startDelayedCXXMethodDeclaration m => some m
  | _ => none

/-- Extract the handle of a parameter-into-scope event. -/
def paramHandle : Event → Option Nat
  | Event.delayedCXXMethodParameter p => some p
  | _ => none

/-- Extract the handle of a default-argument error report. -/
def errHandle : Event → Option Nat
  | Event.paramDefaultArgumentError p => some p
  | _ => none

/-- Extract the handle of a successful default-argument report. -/
def sucHandle : Event → Option Nat
  | Event.paramDefaultArgument p => some p
  | _ => none

theorem dfa_filterMap_decl (pae : PState → Bool × PState) :
    ∀ (args : List LateParsedDefaultArgument) (st : PState),
      ((ParseLexedDefaultArguments pae st args).2).filterMap declHandle = [] := by
  intro args
  induction args with
  | nil =>
    intro st
    simp [ParseLexedDefaultArguments]
  | cons arg rest ih =>
    intro st
    cases harg : arg.Toks with
    | none => simp [ParseLexedDefaultArguments, harg, declHandle, List.filterMap_cons, ih]
    | some Toks =>
      cases hp : (pae (consumeToken (spliceCapture Toks st))).1 <;>
        simp [ParseLexedDefaultArguments, harg, hp, declHandle, List.filterMap_cons, ih]

theorem decls_filterMap_decl (pae : PState → Bool × PState) :
    ∀ (q : List LateParsedMethodDeclaration) (st : PState),
      ((ParseLexedMethodDeclarations pae st q).2).filterMap declHandle
        = q.map (fun lm => lm.Method) := by
  intro q
  induction q with
  | nil =>
    intro st
    simp [ParseLexedMethodDeclarations]
  | cons LM rest ih =>
    intro st
    simp only [ParseLexedMethodDeclarations, List.map_cons, List.filterMap_cons,
      List.filterMap_append, declHandle]
    rw [dfa_filterMap_decl pae LM.DefaultArgs st, ih]
    rfl

theorem defs_filterMap_body (pci pfsb : Nat → PState → PState) :
    ∀ (q : List LexedMethod) (st : PState),
      ((ParseLexedMethodDefs pci pfsb st q).2).filterMap bodyHandle
        = q.map (fun lm => lm.D) := by
  intro q
  induction q with
  | nil =>
    intro st
    simp [ParseLexedMethodDefs]
  | cons LM rest ih =>
    intro st
    by_cases hc : (curTok (spliceCapture LM.Toks st)).kind = TokKind.colon <;>
      simp [ParseLexedMethodDefs, hc, bodyHandle, List.filterMap_cons,
        List.filterMap_append, ih]

theorem dfa_filterMap_param (pae : PState → Bool × PState) :
    ∀ (args : List LateParsedDefaultArgument) (st : PState),
      ((ParseLexedDefaultArguments pae st args).2).filterMap paramHandle
        = args.map (fun a => a.Param) := by
  intro args
  induction args with
  | nil =>
    intro st
    simp [ParseLexedDefaultArguments]
  | cons arg rest ih =>
    intro st
    cases harg : arg.Toks with
    | none => simp [ParseLexedDefaultArguments, harg, paramHandle, List.filterMap_cons, ih]
    | some Toks =>
      cases hp : (pae (consumeToken (spliceCapture Toks st))).1 <;>
        simp [ParseLexedDefaultArguments, harg, hp, paramHandle, List.filterMap_cons, ih]

theorem decls_filterMap_param (pae : PState → Bool × PState) :
    ∀ (q : List LateParsedMethodDeclaration) (st : PState),
      ((ParseLexedMethodDeclarations pae st q).2).filterMap paramHandle
        = q.flatMap (fun lm => lm.DefaultArgs.map (fun a => a.Param)) := by
  intro q
  induction q with
  | nil =>
    intro st
    simp [ParseLexedMethodDeclarations]
  | cons LM rest ih =>
    intro st
    simp only [ParseLexedMethodDeclarations, List.flatMap_cons, List.filterMap_cons,
      List.filterMap_append, paramHandle]
    rw [dfa_filterMap_param pae LM.DefaultArgs st, ih]

theorem dfa_filterMap_err_fail (f : PState → PState) :
    ∀ (args : List LateParsedDefaultArgument) (st : PState),
      ((ParseLexedDefaultArguments (fun s => (false, f s)) st args).2).filterMap errHandle
        = (args.filter (fun a => a.Toks.isSome)).map (fun a => a.Param) := by
  intro args
  induction args with
  | nil =>
    intro st
    simp [ParseLexedDefaultArguments]
  | cons arg rest ih =>
    intro st
    cases harg : arg.Toks with
    | none =>
      simp [ParseLexedDefaultArguments, harg, errHandle, List.filterMap_cons,
        List.filter_cons, ih]
    | some Toks =>
      simp [ParseLexedDefaultArguments, harg, errHandle, List.filterMap_cons,
        List.filter_cons, ih]

theorem dfa_filterMap_suc_fail (f : PState → PState) :
    ∀ (args : List LateParsedDefaultArgument) (st : PState),
      ((ParseLexedDefaultArguments (fun s => (false, f s)) st args).2).filterMap sucHandle
        = [] := by
  intro args
  induction args with
  | nil =>
    intro st
    simp [ParseLexedDefaultArguments]
  | cons arg rest ih =>
    intro st
    cases harg : arg.Toks with
    | none => simp [ParseLexedDefaultArguments, harg, sucHandle, List.filterMap_cons, ih]
    | some Toks => simp [ParseLexedDefaultArguments, harg, sucHandle, List.filterMap_cons, ih]

theorem decls_filterMap_err_fail (f : PState → PState) :
    ∀ (q : List LateParsedMethodDeclaration) (st : PState),
      ((ParseLexedMethodDeclarations (fun s => (false, f s)) st q).2).filterMap errHandle
        = q.flatMap (fun lm =>
            (lm.DefaultArgs.filter (fun a => a.Toks.isSome)).map (fun a => a.Param)) := by
  intro q
  induction q with
  | nil =>
    intro st
    simp [ParseLexedMethodDeclarations]
  | cons LM rest ih =>
    intro st
    simp only [ParseLexedMethodDeclarations, List.flatMap_cons, List.filterMap_cons,
      List.filterMap_append, errHandle]
    rw [dfa_filterMap_err_fail f LM.DefaultArgs st, ih]

theorem decls_filterMap_suc_fail (f : PState → PState) :
    ∀ (q : List LateParsedMethodDeclaration) (st : PState),
      ((ParseLexedMethodDeclarations (fun s => (false, f s)) st q).2).filterMap sucHandle
        = [] := by
  intro q
  induction q with
  | nil =>
    intro st
    simp [ParseLexedMethodDeclarations]
  | cons LM rest ih =>
    intro st
    simp only [ParseLexedMethodDeclarations, List.filterMap_cons, List.filterMap_append,
      sucHandle]
    rw [dfa_filterMap_suc_fail f LM.DefaultArgs st, ih]
    rfl

/-! ### Queue bookkeeping and first-token facts for the capture front-end -/

theorem setLastToks_cons (lm : LexedMethod) (L : List LexedMethod) (hL : L ≠ [])
    (Toks : CachedTokens) :
    setLastToks Toks (lm :: L) = lm :: setLastToks Toks L := by
  cases L with
  | nil => exact absurd rfl hL
  | cons a as => rfl

theorem setLastToks_append (defs : List LexedMethod) (x : LexedMethod) (Toks : CachedTokens) :
    setLastToks Toks (defs ++ [x]) = defs ++ [{ x with Toks := Toks }] := by
  induction defs with
  | nil => rfl
  | cons lm rest ih =>
    rw [List.cons_append, setLastToks_cons lm (rest ++ [x]) (by simp) Toks, ih]
    rfl

theorem dropLast_append_single (l : List LexedMethod) (x : LexedMethod) :
    (l ++ [x]).dropLast = l := by
  simp

theorem scan_head_plain (T1 T2 ea : TokKind) (st : PState) (fuel : Nat) (b : Bool)
    (st1 : PState) (toks1 : CachedTokens) (k : TokKind)
    (hk : (curTok st).kind = k) (hp : plainKind k = true)
    (hT1 : k ≠ T1) (hT2 : k ≠ T2) (hea : k ≠ ea)
    (h : ConsumeAndStoreUntil T1 T2 ea true st [] fuel = some (b, st1, toks1)) :
    ∃ δ, toks1 = curTok st :: δ := by
  cases fuel with
  | zero => simp [ConsumeAndStoreUntil, ConsumeAndStoreUntilLoop] at h
  | succ n =>
    rw [ConsumeAndStoreUntil,
      loop_step_plain k T1 T2 ea true st [] true n hk hp hT1 hT2 hea] at h
    obtain ⟨δ, hδ⟩ := loop_toks_extends n T1 T2 ea true (consumeToken st)
      ([] ++ [curTok st]) false b st1 toks1 h
    exact ⟨δ, by simpa using hδ⟩

/-- The invariant asserted by `ParseLexedMethodDefs` on every deferred
body item: a non-empty captured sequence starting with `{` or `:`. -/
def BodyInv (lm : LexedMethod) : Prop :=
  lm.Toks ≠ [] ∧ ((lm.Toks.headD eofTok).kind = TokKind.l_brace
    ∨ (lm.Toks.headD eofTok).kind = TokKind.colon)

instance (lm : LexedMethod) : Decidable (BodyInv lm) := by
  unfold BodyInv
  infer_instance

/-! ## Claim theorems -/

/-- C1 (counterexample): the claim that every sequence appended by a
call to `ConsumeAndStoreUntil` replays to net-zero nesting is false as
stated: scanning `) ;` for terminator `;` with all open counts zero
appends the stray `)` (best-effort recovery) and then the terminator,
and the resulting sequence fails the delimiter counter. -/
theorem consumeAndStoreUntil_net_zero_counterexample :
    ConsumeAndStoreUntil TokKind.semi TokKind.unknown TokKind.unknown true
      (⟨[⟨TokKind.r_paren, 0⟩, ⟨TokKind.semi, 1⟩], 0, 0, 0⟩ : PState) [] 5
      = some (true, (⟨[], 0, 0, 0⟩ : PState),
          [⟨TokKind.r_paren, 0⟩, ⟨TokKind.semi, 1⟩])
    ∧ delimBalanced [(⟨TokKind.r_paren, 0⟩ : Token), ⟨TokKind.semi, 1⟩] = false := by
  decide

/-- C1 (amended): for every input stream whose region before the
terminator is a properly-balanced forest of delimiter trees (with no
top-level collision with the terminators or early-abort kind),
`ConsumeAndStoreUntil` returns found, appends exactly that region
followed by the terminator, and the region replays through the
delimiter counter to net-zero nesting; only the final intentionally
consumed terminator token falls outside the balanced part. -/
theorem consumeAndStoreUntil_balanced_capture (ts : List TokTree) (T1 T2 ea : TokKind)
    (st : PState) (Toks : CachedTokens) (term : Token) (rest : List Token) (fuel : Nat)
    (hwf : wfList ts = true)
    (havoid : ∀ t ∈ ts, topKind t ≠ T1 ∧ topKind t ≠ T2 ∧ topKind t ≠ ea)
    (hterm : term.kind = T1 ∨ term.kind = T2)
    (hst : st.toks = flattenList ts ++ term :: rest)
    (hfuel : (flattenList ts).length + 2 ≤ fuel) :
    ConsumeAndStoreUntil T1 T2 ea true st Toks fuel
      = some (true, consumeAnyToken { st with toks := term :: rest },
          Toks ++ flattenList ts ++ [term])
    ∧ delimBalanced (flattenList ts) = true :=
  ⟨loop_balanced_region fuel ts T1 T2 ea st Toks true term rest hwf havoid hterm hst hfuel,
   delimBalanced_flattenList ts hwf⟩

theorem consumeAndStoreUntil_balanced_capture_witness :
    (wfList [TokTree.group Delim.paren 1 3 [TokTree.leaf ⟨TokKind.other 2, 2⟩]] = true)
    ∧ (∀ t ∈ [TokTree.group Delim.paren 1 3 [TokTree.leaf ⟨TokKind.other 2, 2⟩]],
        topKind t ≠ TokKind.semi ∧ topKind t ≠ TokKind.unknown ∧ topKind t ≠ TokKind.unknown)
    ∧ ((⟨TokKind.semi, 4⟩ : Token).kind = TokKind.semi
        ∨ (⟨TokKind.semi, 4⟩ : Token).kind = TokKind.unknown)
    ∧ (ConsumeAndStoreUntil TokKind.semi TokKind.unknown TokKind.unknown true
        (⟨flattenList [TokTree.group Delim.paren 1 3 [TokTree.leaf ⟨TokKind.other 2, 2⟩]]
            ++ (⟨TokKind.semi, 4⟩ : Token) :: [], 0, 0, 0⟩ : PState) [] 9
        = some (true, consumeAnyToken
            { (⟨flattenList [TokTree.group Delim.paren 1 3 [TokTree.leaf ⟨TokKind.other 2, 2⟩]]
                ++ (⟨TokKind.semi, 4⟩ : Token) :: [], 0, 0, 0⟩ : PState) with
              toks := (⟨TokKind.semi, 4⟩ : Token) :: [] },
            [] ++ flattenList [TokTree.group Delim.paren 1 3 [TokTree.leaf ⟨TokKind.other 2, 2⟩]]
              ++ [(⟨TokKind.semi, 4⟩ : Token)])
        ∧ delimBalanced (flattenList
            [TokTree.group Delim.paren 1 3 [TokTree.leaf ⟨TokKind.other 2, 2⟩]]) = true) :=
  ⟨by decide, by decide, by decide,
    consumeAndStoreUntil_balanced_capture
      [TokTree.group Delim.paren 1 3 [TokTree.leaf ⟨TokKind.other 2, 2⟩]]
      TokKind.semi TokKind.unknown TokKind.unknown _ [] ⟨TokKind.semi, 4⟩ [] 9
      (by decide) (by decide) (by decide) rfl (by decide)⟩

/-- C2: both replay passes drain their queue in FIFO order: the
statement-body parser is invoked on the deferred bodies in exactly the
queue order, and delayed-declaration processing starts on the deferred
declaration items in exactly the queue order. -/
theorem replay_drain_fifo_order (pci pfsb : Nat → PState → PState)
    (pae : PState → Bool × PState) (st st2 : PState) (q : List LexedMethod)
    (dq : List LateParsedMethodDeclaration) :
    ((ParseLexedMethodDefs pci pfsb st q).2).filterMap bodyHandle
      = q.map (fun lm => lm.D)
    ∧ ((ParseLexedMethodDeclarations pae st2 dq).2).filterMap declHandle
      = dq.map (fun lm => lm.Method) :=
  ⟨defs_filterMap_body pci pfsb q st, decls_filterMap_decl pae dq st2⟩

/-- C3: when `ParseCXXInlineMethodDef` is entered on a colon and the
scan for the body-opening brace stops at a semicolon, it emits the
expected-left-brace diagnostic, consumes the semicolon, pops the item
it had pushed (leaving the queue exactly as before the call), and
returns normally. -/
theorem inline_method_malformed_initializer_recovery (FnD : Nat) (st st1 : PState)
    (toks1 : CachedTokens) (defs : List LexedMethod) (fuel : Nat)
    (hcolon : (curTok st).kind = TokKind.colon)
    (hscan : ConsumeAndStoreUntil TokKind.l_brace TokKind.unknown TokKind.semi true st [] fuel
      = some (false, st1, toks1))
    (hsemi : (curTok st1).kind = TokKind.semi) :
    ParseCXXInlineMethodDef FnD st defs fuel
      = some (FnD, consumeAnyToken st1, defs, [Event.errExpectedLBrace (curTok st1).loc])
    ∧ (consumeAnyToken st1).toks = st1.toks.tail := by
  constructor
  · simp only [ParseCXXInlineMethodDef]
    rw [if_pos hcolon]
    simp only [hscan]
    rw [if_pos ⟨trivial, hsemi⟩, dropLast_append_single]
  · exact toks_consumeAnyToken st1

theorem inline_method_malformed_initializer_recovery_witness :
    ((curTok (⟨[⟨TokKind.colon, 0⟩, ⟨TokKind.semi, 1⟩, ⟨TokKind.other 9, 2⟩], 0, 0, 0⟩
        : PState)).kind = TokKind.colon)
    ∧ (ConsumeAndStoreUntil TokKind.l_brace TokKind.unknown TokKind.semi true
        (⟨[⟨TokKind.colon, 0⟩, ⟨TokKind.semi, 1⟩, ⟨TokKind.other 9, 2⟩], 0, 0, 0⟩ : PState) [] 5
        = some (false, (⟨[⟨TokKind.semi, 1⟩, ⟨TokKind.other 9, 2⟩], 0, 0, 0⟩ : PState),
            [⟨TokKind.colon, 0⟩]))
    ∧ (ParseCXXInlineMethodDef 7
        (⟨[⟨TokKind.colon, 0⟩, ⟨TokKind.semi, 1⟩, ⟨TokKind.other 9, 2⟩], 0, 0, 0⟩ : PState) [] 5
        = some (7, consumeAnyToken
            (⟨[⟨TokKind.semi, 1⟩, ⟨TokKind.other 9, 2⟩], 0, 0, 0⟩ : PState), [],
            [Event.errExpectedLBrace (curTok (⟨[⟨TokKind.semi, 1⟩, ⟨TokKind.other 9, 2⟩],
              0, 0, 0⟩ : PState)).loc])
        ∧ (consumeAnyToken (⟨[⟨TokKind.semi, 1⟩, ⟨TokKind.other 9, 2⟩], 0, 0, 0⟩
            : PState)).toks
          = (⟨[⟨TokKind.semi, 1⟩, ⟨TokKind.other 9, 2⟩], 0, 0, 0⟩ : PState).toks.tail) :=
  ⟨by decide, by decide,
    inline_method_malformed_initializer_recovery 7 _ _ [⟨TokKind.colon, 0⟩] [] 5
      (by decide) (by decide) (by decide)⟩

/-- C4: `ConsumeAndStoreUntil` reports not-found (a) immediately on the
early-abort token, consuming and storing nothing further, (b) on
end-of-input; and (c) every not-found result stopped either at the
early-abort token, at end-of-input, or at a closing delimiter matched
by a nonzero outer open count (the only delimiter-related case). -/
theorem consumeAndStoreUntil_not_found_conditions (T1 T2 ea : TokKind) (cft : Bool) :
    (∀ (st : PState) (Toks : CachedTokens) (first : Bool) (fuel : Nat),
      (curTok st).kind = ea → ea ≠ T1 → ea ≠ T2 →
      ConsumeAndStoreUntilLoop T1 T2 ea cft st Toks first (fuel + 1)
        = some (false, st, Toks))
    ∧ (∀ (st : PState) (Toks : CachedTokens) (first : Bool) (fuel : Nat),
      (curTok st).kind = TokKind.eof → TokKind.eof ≠ T1 → TokKind.eof ≠ T2 →
      TokKind.eof ≠ ea →
      ConsumeAndStoreUntilLoop T1 T2 ea cft st Toks first (fuel + 1)
        = some (false, st, Toks))
    ∧ (∀ (st : PState) (Toks : CachedTokens) (fuel : Nat) (st' : PState)
        (Toks' : CachedTokens),
      ConsumeAndStoreUntil T1 T2 ea cft st Toks fuel = some (false, st', Toks') →
      (curTok st').kind = ea ∨ (curTok st').kind = TokKind.eof ∨
        ∃ d, (curTok st').kind = closeKind d ∧ countOf st' d ≠ 0) :=
  ⟨fun st Toks first fuel hk h1 h2 =>
      loop_step_ea T1 T2 ea cft st Toks first fuel hk h1 h2,
   fun st Toks first fuel hk h1 h2 h3 =>
      loop_step_eof T1 T2 ea cft st Toks first fuel hk h1 h2 h3,
   fun st Toks fuel st' Toks' h =>
      loop_false_characterization fuel T1 T2 ea cft st Toks true st' Toks' h⟩

theorem consumeAndStoreUntil_not_found_conditions_witness :
    ((curTok (⟨[⟨TokKind.semi, 0⟩, ⟨TokKind.other 1, 1⟩], 0, 0, 0⟩ : PState)).kind
        = TokKind.semi)
    ∧ (ConsumeAndStoreUntilLoop TokKind.l_brace TokKind.unknown TokKind.semi true
        (⟨[⟨TokKind.semi, 0⟩, ⟨TokKind.other 1, 1⟩], 0, 0, 0⟩ : PState)
        [⟨TokKind.colon, 9⟩] false (3 + 1)
        = some (false, ⟨[⟨TokKind.semi, 0⟩, ⟨TokKind.other 1, 1⟩], 0, 0, 0⟩,
            [⟨TokKind.colon, 9⟩]))
    ∧ (ConsumeAndStoreUntilLoop TokKind.l_brace TokKind.unknown TokKind.semi true
        (⟨[], 0, 0, 0⟩ : PState) [] true (0 + 1) = some (false, ⟨[], 0, 0, 0⟩, []))
    ∧ ((curTok (⟨[⟨TokKind.semi, 0⟩, ⟨TokKind.other 1, 1⟩], 0, 0, 0⟩ : PState)).kind
          = TokKind.semi
        ∨ (curTok (⟨[⟨TokKind.semi, 0⟩, ⟨TokKind.other 1, 1⟩], 0, 0, 0⟩ : PState)).kind
          = TokKind.eof
        ∨ ∃ d, (curTok (⟨[⟨TokKind.semi, 0⟩, ⟨TokKind.other 1, 1⟩], 0, 0, 0⟩
            : PState)).kind = closeKind d
          ∧ countOf (⟨[⟨TokKind.semi, 0⟩, ⟨TokKind.other 1, 1⟩], 0, 0, 0⟩ : PState) d ≠ 0) :=
  ⟨by decide,
   (consumeAndStoreUntil_not_found_conditions TokKind.l_brace TokKind.unknown
      TokKind.semi true).1 _ _ false 3 (by decide) (by decide) (by decide),
   (consumeAndStoreUntil_not_found_conditions TokKind.l_brace TokKind.unknown
      TokKind.semi true).2.1 _ [] true 0 (by decide) (by decide) (by decide) (by decide),
   (consumeAndStoreUntil_not_found_conditions TokKind.l_brace TokKind.unknown
      TokKind.semi true).2.2 ⟨[⟨TokKind.semi, 0⟩, ⟨TokKind.other 1, 1⟩], 0, 0, 0⟩ [] 5
      ⟨[⟨TokKind.semi, 0⟩, ⟨TokKind.other 1, 1⟩], 0, 0, 0⟩ [] (by decide)⟩

/-- C5: on a terminator token, `ConsumeAndStoreUntil` with
`ConsumeFinalToken` appends the terminator to the buffer, consumes it
from the stream, and returns found; without `ConsumeFinalToken` it
returns found but neither stores nor consumes the terminator. -/
theorem consumeAndStoreUntil_terminator_handling (T1 T2 ea : TokKind) (st : PState)
    (Toks : CachedTokens) (first : Bool) (fuel : Nat)
    (h : (curTok st).kind = T1 ∨ (curTok st).kind = T2) :
    ConsumeAndStoreUntilLoop T1 T2 ea true st Toks first (fuel + 1)
      = some (true, consumeAnyToken st, Toks ++ [curTok st])
    ∧ (consumeAnyToken st).toks = st.toks.tail
    ∧ ConsumeAndStoreUntilLoop T1 T2 ea false st Toks first (fuel + 1)
      = some (true, st, Toks) :=
  ⟨loop_step_term_cft T1 T2 ea st Toks first fuel h, toks_consumeAnyToken st,
   loop_step_term_nocft T1 T2 ea st Toks first fuel h⟩

theorem consumeAndStoreUntil_terminator_handling_witness :
    ((curTok (⟨[⟨TokKind.r_brace, 0⟩, ⟨TokKind.semi, 1⟩], 0, 0, 1⟩ : PState)).kind
        = TokKind.r_brace
      ∨ (curTok (⟨[⟨TokKind.r_brace, 0⟩, ⟨TokKind.semi, 1⟩], 0, 0, 1⟩ : PState)).kind
        = TokKind.unknown)
    ∧ (ConsumeAndStoreUntilLoop TokKind.r_brace TokKind.unknown TokKind.unknown true
        (⟨[⟨TokKind.r_brace, 0⟩, ⟨TokKind.semi, 1⟩], 0, 0, 1⟩ : PState)
        [⟨TokKind.l_brace, 9⟩] true (0 + 1)
        = some (true,
            consumeAnyToken (⟨[⟨TokKind.r_brace, 0⟩, ⟨TokKind.semi, 1⟩], 0, 0, 1⟩ : PState),
            [⟨TokKind.l_brace, 9⟩]
              ++ [curTok (⟨[⟨TokKind.r_brace, 0⟩, ⟨TokKind.semi, 1⟩], 0, 0, 1⟩ : PState)])
        ∧ (consumeAnyToken (⟨[⟨TokKind.r_brace, 0⟩, ⟨TokKind.semi, 1⟩], 0, 0, 1⟩
            : PState)).toks
          = (⟨[⟨TokKind.r_brace, 0⟩, ⟨TokKind.semi, 1⟩], 0, 0, 1⟩ : PState).toks.tail
        ∧ ConsumeAndStoreUntilLoop TokKind.r_brace TokKind.unknown TokKind.unknown false
            (⟨[⟨TokKind.r_brace, 0⟩, ⟨TokKind.semi, 1⟩], 0, 0, 1⟩ : PState)
            [⟨TokKind.l_brace, 9⟩] true (0 + 1)
          = some (true, ⟨[⟨TokKind.r_brace, 0⟩, ⟨TokKind.semi, 1⟩], 0, 0, 1⟩,
              [⟨TokKind.l_brace, 9⟩])) :=
  ⟨by decide,
   consumeAndStoreUntil_terminator_handling TokKind.r_brace TokKind.unknown TokKind.unknown
     _ _ true 0 (by decide)⟩

/-- C6: on a closing delimiter that is not a terminator: with a nonzero
open count for that kind and past the first examined token, the scan
returns not-found without consuming it; otherwise the token is appended,
consumed through the kind-specific consume method, and scanning
continues. -/
theorem consumeAndStoreUntil_unawaited_close (d : Delim) (T1 T2 ea : TokKind) (cft : Bool)
    (st : PState) (Toks : CachedTokens) (fuel : Nat)
    (hk : (curTok st).kind = closeKind d)
    (hT1 : closeKind d ≠ T1) (hT2 : closeKind d ≠ T2) (hea : closeKind d ≠ ea) :
    (countOf st d ≠ 0 →
      ConsumeAndStoreUntilLoop T1 T2 ea cft st Toks false (fuel + 1)
        = some (false, st, Toks))
    ∧ (∀ first : Bool, countOf st d = 0 ∨ first = true →
      ConsumeAndStoreUntilLoop T1 T2 ea cft st Toks first (fuel + 1)
        = ConsumeAndStoreUntilLoop T1 T2 ea cft (consumeDelim d st) (Toks ++ [curTok st])
            false fuel)
    ∧ (consumeDelim d st).toks = st.toks.tail :=
  ⟨fun hc => loop_step_close_stop d T1 T2 ea cft st Toks fuel hk hT1 hT2 hea hc,
   fun first hcf => loop_step_close_skip d T1 T2 ea cft st Toks first fuel hk hT1 hT2 hea hcf,
   toks_consumeDelim d st⟩

theorem consumeAndStoreUntil_unawaited_close_witness :
    ((curTok (⟨[⟨TokKind.r_paren, 0⟩, ⟨TokKind.semi, 1⟩], 1, 0, 0⟩ : PState)).kind
        = closeKind Delim.paren)
    ∧ (countOf (⟨[⟨TokKind.r_paren, 0⟩, ⟨TokKind.semi, 1⟩], 1, 0, 0⟩ : PState)
        Delim.paren ≠ 0)
    ∧ (ConsumeAndStoreUntilLoop TokKind.semi TokKind.unknown TokKind.unknown true
        (⟨[⟨TokKind.r_paren, 0⟩, ⟨TokKind.semi, 1⟩], 1, 0, 0⟩ : PState) [] false (3 + 1)
        = some (false, ⟨[⟨TokKind.r_paren, 0⟩, ⟨TokKind.semi, 1⟩], 1, 0, 0⟩, []))
    ∧ (ConsumeAndStoreUntilLoop TokKind.semi TokKind.unknown TokKind.unknown true
        (⟨[⟨TokKind.r_paren, 0⟩, ⟨TokKind.semi, 1⟩], 1, 0, 0⟩ : PState) [] true (3 + 1)
        = ConsumeAndStoreUntilLoop TokKind.semi TokKind.unknown TokKind.unknown true
            (consumeDelim Delim.paren
              (⟨[⟨TokKind.r_paren, 0⟩, ⟨TokKind.semi, 1⟩], 1, 0, 0⟩ : PState))
            ([] ++ [curTok (⟨[⟨TokKind.r_paren, 0⟩, ⟨TokKind.semi, 1⟩], 1, 0, 0⟩
              : PState)]) false 3) :=
  ⟨by decide, by decide,
   (consumeAndStoreUntil_unawaited_close Delim.paren TokKind.semi TokKind.unknown
      TokKind.unknown true _ [] 3 (by decide) (by decide) (by decide) (by decide)).1
     (by decide),
   (consumeAndStoreUntil_unawaited_close Delim.paren TokKind.semi TokKind.unknown
      TokKind.unknown true _ [] 3 (by decide) (by decide) (by decide) (by decide)).2.1
     true (Or.inr rfl)⟩

/-- C7: the declarations pass is never aborted by a failed
default-argument parse: for any expression-parser oracle every
parameter of every queued item is still brought into scope in order,
and with an always-failing oracle the error report is emitted exactly
once per captured default argument (for that parameter), with no
success report. -/
theorem default_argument_error_isolation (pae : PState → Bool × PState)
    (f : PState → PState) (st stf : PState) (q : List LateParsedMethodDeclaration) :
    ((ParseLexedMethodDeclarations pae st q).2).filterMap paramHandle
      = q.flatMap (fun lm => lm.DefaultArgs.map (fun a => a.Param))
    ∧ ((ParseLexedMethodDeclarations (fun s => (false, f s)) stf q).2).filterMap errHandle
      = q.flatMap (fun lm =>
          (lm.DefaultArgs.filter (fun a => a.Toks.isSome)).map (fun a => a.Param))
    ∧ ((ParseLexedMethodDeclarations (fun s => (false, f s)) stf q).2).filterMap sucHandle
      = [] :=
  ⟨decls_filterMap_param pae q st, decls_filterMap_err_fail f q stf,
   decls_filterMap_suc_fail f q stf⟩

/-- C8: cursor substitution appends the pending lookahead token to the
end of the captured sequence (leaving it the current token), then
consumes it, so the spliced stream is exactly the capture followed by
the saved token and the original remainder; whenever the capture starts
with `=`, the first token of the spliced region is `=` (the assertion
in the declarations pass holds). -/
theorem cursor_substitution_equal_start (capture : CachedTokens) (st : PState)
    (hcap : capture ≠ []) :
    curTok (enterTokenStream (capture ++ [curTok st]) st) = curTok st
    ∧ (spliceCapture capture st).toks = capture ++ curTok st :: st.toks.tail
    ∧ ((capture.headD eofTok).kind = TokKind.equal →
        (curTok (spliceCapture capture st)).kind = TokKind.equal) := by
  obtain ⟨c, cs, rfl⟩ : ∃ c cs, capture = c :: cs := by
    cases capture with
    | nil => exact absurd rfl hcap
    | cons c cs => exact ⟨c, cs, rfl⟩
  refine ⟨rfl, ?_, ?_⟩
  · simp only [spliceCapture, toks_consumeAnyToken, enterTokenStream]
    simp
  · intro hq
    have h2 : (spliceCapture (c :: cs) st).toks
        = c :: (cs ++ curTok st :: st.toks.tail) := by
      simp only [spliceCapture, toks_consumeAnyToken, enterTokenStream]
      simp
    rw [curTok, h2]
    simpa using hq

theorem cursor_substitution_equal_start_witness :
    (([(⟨TokKind.equal, 5⟩ : Token), ⟨TokKind.other 7, 6⟩] : CachedTokens) ≠ [])
    ∧ (curTok (enterTokenStream
          (([(⟨TokKind.equal, 5⟩ : Token), ⟨TokKind.other 7, 6⟩] : CachedTokens)
            ++ [curTok (⟨[⟨TokKind.r_paren, 9⟩, ⟨TokKind.semi, 10⟩], 0, 0, 0⟩ : PState)])
          (⟨[⟨TokKind.r_paren, 9⟩, ⟨TokKind.semi, 10⟩], 0, 0, 0⟩ : PState))
        = curTok (⟨[⟨TokKind.r_paren, 9⟩, ⟨TokKind.semi, 10⟩], 0, 0, 0⟩ : PState)
      ∧ (spliceCapture [(⟨TokKind.equal, 5⟩ : Token), ⟨TokKind.other 7, 6⟩]
          (⟨[⟨TokKind.r_paren, 9⟩, ⟨TokKind.semi, 10⟩], 0, 0, 0⟩ : PState)).toks
        = [(⟨TokKind.equal, 5⟩ : Token), ⟨TokKind.other 7, 6⟩]
            ++ curTok (⟨[⟨TokKind.r_paren, 9⟩, ⟨TokKind.semi, 10⟩], 0, 0, 0⟩ : PState)
              :: (⟨[⟨TokKind.r_paren, 9⟩, ⟨TokKind.semi, 10⟩], 0, 0, 0⟩
                : PState).toks.tail
      ∧ ((([(⟨TokKind.equal, 5⟩ : Token), ⟨TokKind.other 7, 6⟩]
            : CachedTokens).headD eofTok).kind = TokKind.equal →
          (curTok (spliceCapture [(⟨TokKind.equal, 5⟩ : Token), ⟨TokKind.other 7, 6⟩]
            (⟨[⟨TokKind.r_paren, 9⟩, ⟨TokKind.semi, 10⟩], 0, 0, 0⟩ : PState))).kind
            = TokKind.equal)) :=
  ⟨by decide,
   cursor_substitution_equal_start [⟨TokKind.equal, 5⟩, ⟨TokKind.other 7, 6⟩]
     ⟨[⟨TokKind.r_paren, 9⟩, ⟨TokKind.semi, 10⟩], 0, 0, 0⟩ (by decide)⟩

/-- C9: starting from a queue of deferred body items that all satisfy
the body invariant and a current token that is `{` or `:`, every item
still enqueued when `ParseCXXInlineMethodDef` returns has a non-empty
captured sequence starting with `{` or `:` — exactly the precondition
`ParseLexedMethodDefs` asserts before replaying. -/
theorem body_queue_invariant_preserved (FnD r : Nat) (st st' : PState)
    (defs defs' : List LexedMethod) (evs : List Event) (fuel : Nat)
    (h0 : (curTok st).kind = TokKind.l_brace ∨ (curTok st).kind = TokKind.colon)
    (hinv : ∀ lm ∈ defs, BodyInv lm)
    (hrun : ParseCXXInlineMethodDef FnD st defs fuel = some (r, st', defs', evs)) :
    ∀ lm ∈ defs', BodyInv lm := by
  rcases h0 with hbrace | hcolon
  · have hne : ¬(curTok st).kind = TokKind.colon := by
      rw [hbrace]
      decide
    simp only [ParseCXXInlineMethodDef] at hrun
    rw [if_neg hne] at hrun
    split at hrun
    · simp at hrun
    · rename_i b2 st2 toks2 heq2
      simp only [Option.some.injEq, Prod.mk.injEq] at hrun
      obtain ⟨-, -, h3, -⟩ := hrun
      rw [← h3, setLastToks_append]
      intro lm hm
      rcases List.mem_append.mp hm with hmem | hmem
      · exact hinv lm hmem
      · have hlm : lm = { D := FnD, Toks := toks2 } := by simpa using hmem
        simp only [ConsumeAndStoreUntil] at heq2
        obtain ⟨δ, hδ⟩ := loop_toks_extends fuel TokKind.r_brace TokKind.unknown
          TokKind.unknown true (consumeBrace st) [curTok st] true b2 st2 toks2 heq2
        rw [hlm]
        constructor
        · rw [hδ]
          simp
        · left
          rw [hδ]
          simpa using hbrace
  · simp only [ParseCXXInlineMethodDef] at hrun
    rw [if_pos hcolon] at hrun
    split at hrun
    · simp at hrun
    · rename_i found st1 toks1 heq1
      split at hrun
      · simp only [Option.some.injEq, Prod.mk.injEq] at hrun
        obtain ⟨-, -, h3, -⟩ := hrun
        rw [← h3, dropLast_append_single]
        exact hinv
      · split at hrun
        · simp at hrun
        · rename_i b2 st2 toks2 heq2
          simp only [Option.some.injEq, Prod.mk.injEq] at hrun
          obtain ⟨-, -, h3, -⟩ := hrun
          rw [← h3, setLastToks_append]
          intro lm hm
          rcases List.mem_append.mp hm with hmem | hmem
          · exact hinv lm hmem
          · have hlm : lm = { D := FnD, Toks := toks2 } := by simpa using hmem
            obtain ⟨δ1, h1⟩ := scan_head_plain TokKind.l_brace TokKind.unknown TokKind.semi
              st fuel found st1 toks1 TokKind.colon hcolon (by decide) (by decide)
              (by decide) (by decide) heq1
            simp only [ConsumeAndStoreUntil] at heq2
            obtain ⟨δ2, h2⟩ := loop_toks_extends fuel TokKind.r_brace TokKind.unknown
              TokKind.unknown true st1 toks1 true b2 st2 toks2 heq2
            rw [hlm]
            constructor
            · rw [h2, h1]
              simp
            · right
              rw [h2, h1]
              simpa using hcolon

theorem body_queue_invariant_preserved_witness :
    ((curTok (⟨[⟨TokKind.l_brace, 0⟩, ⟨TokKind.r_brace, 1⟩, ⟨TokKind.semi, 2⟩], 0, 0, 0⟩
        : PState)).kind = TokKind.l_brace
      ∨ (curTok (⟨[⟨TokKind.l_brace, 0⟩, ⟨TokKind.r_brace, 1⟩, ⟨TokKind.semi, 2⟩],
          0, 0, 0⟩ : PState)).kind = TokKind.colon)
    ∧ (∀ lm ∈ ([] : List LexedMethod), BodyInv lm)
    ∧ (ParseCXXInlineMethodDef 3
        (⟨[⟨TokKind.l_brace, 0⟩, ⟨TokKind.r_brace, 1⟩, ⟨TokKind.semi, 2⟩], 0, 0, 0⟩
          : PState) [] 5
        = some (3, (⟨[⟨TokKind.semi, 2⟩], 0, 0, 0⟩ : PState),
            [({ D := 3, Toks := [⟨TokKind.l_brace, 0⟩, ⟨TokKind.r_brace, 1⟩] }
              : LexedMethod)], []))
    ∧ (∀ lm ∈ [({ D := 3, Toks := [⟨TokKind.l_brace, 0⟩, ⟨TokKind.r_brace, 1⟩] }
        : LexedMethod)], BodyInv lm) :=
  ⟨by decide, by decide, by decide,
   body_queue_invariant_preserved 3 3
     ⟨[⟨TokKind.l_brace, 0⟩, ⟨TokKind.r_brace, 1⟩, ⟨TokKind.semi, 2⟩], 0, 0, 0⟩
     ⟨[⟨TokKind.semi, 2⟩], 0, 0, 0⟩ []
     [({ D := 3, Toks := [⟨TokKind.l_brace, 0⟩, ⟨TokKind.r_brace, 1⟩] } : LexedMethod)]
     [] 5 (by decide) (by decide) (by decide)⟩

/-- C10: the scanner terminates on every finite token stream: fuel
exceeding the stream length always suffices, because every loop
iteration either returns or consumes at least one token (directly or
through its nested recursive call). -/
theorem consumeAndStoreUntil_terminates (T1 T2 ea : TokKind) (cft : Bool) (st : PState)
    (Toks : CachedTokens) (fuel : Nat) (h : st.toks.length < fuel) :
    (ConsumeAndStoreUntil T1 T2 ea cft st Toks fuel).isSome :=
  loop_isSome fuel T1 T2 ea cft st Toks true h

theorem consumeAndStoreUntil_terminates_witness :
    ((⟨[⟨TokKind.l_paren, 0⟩, ⟨TokKind.r_paren, 1⟩, ⟨TokKind.r_brace, 2⟩], 0, 0, 0⟩
        : PState).toks.length < 9)
    ∧ (ConsumeAndStoreUntil TokKind.r_brace TokKind.unknown TokKind.unknown true
        (⟨[⟨TokKind.l_paren, 0⟩, ⟨TokKind.r_paren, 1⟩, ⟨TokKind.r_brace, 2⟩], 0, 0, 0⟩
          : PState) [] 9).isSome :=
  ⟨by decide,
   consumeAndStoreUntil_terminates TokKind.r_brace TokKind.unknown TokKind.unknown true
     _ [] 9 (by decide)⟩

end Clang
